import Mathlib

/-!
# Verification of the project registry and codec of `src/App.tsx`

This file gives a shallow embedding of the project data model, the JSON
serialization used for persistence, and the registry handlers
(`handleCreateProject`, `handleImportProject`, `handleDeleteProject`,
`updateActiveProjectData` and the three setter wrappers) of `src/App.tsx`,
and proves or refutes the specification claims about them.

JavaScript `Date.now()` is modelled by an explicit `now : Nat` parameter
(the handlers are synchronous, so all readings within one handler share it).
`localStorage` is modelled as an optional stored JSON value; `JSON.stringify`
followed by `JSON.parse` is modelled at the level of JSON trees by an
encoder into a `Json` inductive together with a structural reader back.
-/

/-- A JSON value, the target of `JSON.stringify` on the data model.  All
numbers occurring in the data model are integer timestamps, modelled as
`Nat`. Objects are ordered field lists, as produced by object literals. -/
inductive Json where
  | null : Json
  | bool (b : Bool) : Json
  | num (n : Nat) : Json
  | str (s : String) : Json
  | arr (elems : List Json) : Json
  | obj (fields : List (String × Json)) : Json
deriving Repr

/-- Field lookup in a JSON object (first binding wins); `none` on non-objects. -/
def Json.getField : Json → String → Option Json
  | .obj fields, k => fields.lookup k
  | _, _ => none

/-- The type of a reusable field definition: `'text' | 'number' | 'date' |
'select' | 'radio'` (from the maintenance guide comment in `src/App.tsx`). -/
inductive VarType where
  | text | number | date | select | radio
deriving Repr, DecidableEq

def VarType.toString : VarType → String
  | .text => "text"
  | .number => "number"
  | .date => "date"
  | .select => "select"
  | .radio => "radio"

def VarType.ofString (s : String) : Option VarType :=
  if s = "text" then some .text
  else if s = "number" then some .number
  else if s = "date" then some .date
  else if s = "select" then some .select
  else if s = "radio" then some .radio
  else none

/-- Modelled from the spec: the `Variable` shape of `types.ts` (not under
`src/`), §3 of the spec, matching the object literals of `INITIAL_LIBRARY`
in `src/App.tsx`: `id`, `label`, `type`, optional `options`, optional
`format`. -/
structure Variable where
  id : String
  label : String
  type : VarType
  options : Option (List String) := none
  format : Option String := none
deriving Repr, DecidableEq

/-- The form template type: `'standard' | 'grid'`. -/
inductive FormType where
  | standard | grid
deriving Repr, DecidableEq

def FormType.toString : FormType → String
  | .standard => "standard"
  | .grid => "grid"

def FormType.ofString (s : String) : Option FormType :=
  if s = "standard" then some .standard
  else if s = "grid" then some .grid
  else none

/-- Modelled from the spec: the `Form` shape of `types.ts` (not under
`src/`), §3 of the spec, matching the object literals of `INITIAL_LIBRARY`
in `src/App.tsx`: `id`, `name`, `type`, `variableIds`, optional
`headerVariableIds`, optional `defaultRows`. -/
structure Form where
  id : String
  name : String
  type : FormType
  variableIds : List String
  headerVariableIds : Option (List String) := none
  defaultRows : Option (List String) := none
deriving Repr, DecidableEq

/-- The `LibraryData` shape: the catalog of variables and forms. -/
structure LibraryData where
  «variables» : List Variable
  forms : List Form
deriving Repr, DecidableEq

/-- Modelled from the spec: one operator-entered grid row of a Document
Node's instance data (§3: "each row keyed by an id and holding a mapping
from column-variable-id to entered value"). -/
structure GridRow where
  id : String
  values : List (String × String)
deriving Repr, DecidableEq

/-- Modelled from the spec: a Document Node of the Project Tree (§3): a
node id, display title, optional Form reference, ordered children, and
grid instance data (rows and header-variable values) when the referenced
Form is a grid. -/
inductive ProjectNode where
  | mk (id : String) (title : String) (formId : Option String)
      (children : List ProjectNode)
      (rows : Option (List GridRow))
      (headerValues : Option (List (String × String)))
deriving Repr

def ProjectNode.id : ProjectNode → String
  | .mk i _ _ _ _ _ => i

def ProjectNode.title : ProjectNode → String
  | .mk _ t _ _ _ _ => t

def ProjectNode.formId : ProjectNode → Option String
  | .mk _ _ f _ _ _ => f

def ProjectNode.children : ProjectNode → List ProjectNode
  | .mk _ _ _ c _ _ => c

def ProjectNode.rows : ProjectNode → Option (List GridRow)
  | .mk _ _ _ _ r _ => r

def ProjectNode.headerValues : ProjectNode → Option (List (String × String))
  | .mk _ _ _ _ _ h => h

/-- Modelled from the spec: a Project Version (§3): an immutable snapshot
`{ id, label, createdAt, tree, library }`. -/
structure ProjectVersion where
  id : String
  label : String
  createdAt : Nat
  tree : List ProjectNode
  library : LibraryData
deriving Repr

/-- The `meta` block of a Project File, as built by `handleCreateProject`. -/
structure ProjectMeta where
  id : String
  name : String
  description : String
  createdAt : Nat
  lastModified : Nat
deriving Repr, DecidableEq

/-- The `data` block of a Project File: tree, library, versions. -/
structure ProjectData where
  project : List ProjectNode
  library : LibraryData
  versions : List ProjectVersion
deriving Repr

/-- A persisted Project File: `{ meta, data }`. -/
structure ProjectFile where
  meta : ProjectMeta
  data : ProjectData
deriving Repr

/-- The built-in default Library Store, transcribed from `INITIAL_LIBRARY`
in `src/App.tsx` (lines 31–90). -/
def INITIAL_LIBRARY : LibraryData :=
  { «variables» := [
      { id := "DEM_01", label := "受试者姓名缩写", type := .text, format := some "最多4位字母" },
      { id := "DEM_02", label := "出生日期", type := .date, format := some "YYYY-MM-DD" },
      { id := "VS_01", label := "收缩压 (mmHg)", type := .number, format := some "3位整数" },
      { id := "VS_02", label := "舒张压 (mmHg)", type := .number, format := some "3位整数" },
      { id := "VS_03", label := "心率 (bpm)", type := .number, format := some "3位整数" },
      { id := "AE_01", label := "不良事件名称", type := .text },
      { id := "AE_02", label := "严重程度", type := .select,
        options := some ["轻度", "中度", "重度"] },
      { id := "AE_03", label := "与药物相关性", type := .radio,
        options := some ["肯定有关", "可能有关", "可能无关", "肯定无关"] },
      { id := "PK_DONE", label := "是否采血", type := .radio, options := some ["是", "否"] },
      { id := "PK_DATE", label := "采血日期", type := .date, format := some "YYYY-MM-DD" },
      { id := "PK_TIME", label := "采血时间", type := .text, format := some "HH:MM (24h)" },
      { id := "PK_REMARK", label := "备注", type := .text },
      { id := "URINE_VOL", label := "尿液体积 (mL)", type := .number },
      { id := "URINE_START", label := "起始时间", type := .text, format := some "HH:MM" },
      { id := "URINE_END", label := "结束时间", type := .text, format := some "HH:MM" } ],
    forms := [
      { id := "DM", name := "人口学资料", type := .standard,
        variableIds := ["DEM_01", "DEM_02"] },
      { id := "VS", name := "生命体征", type := .standard,
        variableIds := ["VS_01", "VS_02", "VS_03"] },
      { id := "AE", name := "不良事件", type := .standard,
        variableIds := ["AE_01", "AE_02", "AE_03"] },
      { id := "PK", name := "PK 采血记录", type := .grid,
        headerVariableIds := some ["PK_DATE"],
        variableIds := ["PK_TIME", "PK_DONE", "PK_REMARK"],
        defaultRows := some ["给药前0h", "给药后0.5h", "给药后1h", "给药后2h", "给药后4h"] } ] }

/-- All variable ids referenced by a form (`variableIds` plus
`headerVariableIds` when present). -/
def Form.referencedIds (f : Form) : List String :=
  f.variableIds ++ (f.headerVariableIds.getD [])

/-- Referential integrity of a Library Store (§3/§4.1 invariant): every id
listed in any form's `variableIds` or `headerVariableIds` resolves to a
variable present in the same store. -/
def LibraryData.refIntegrity (L : LibraryData) : Prop :=
  ∀ f ∈ L.forms, ∀ vid ∈ f.referencedIds, ∃ v ∈ L.variables, v.id = vid

instance (L : LibraryData) : Decidable L.refIntegrity := by
  unfold LibraryData.refIntegrity
  infer_instance

/-- The full library invariant of the spec (§3): unique variable ids,
unique form ids, referential integrity, and non-empty `options` on every
select/radio variable. -/
def LibraryData.wellFormed (L : LibraryData) : Prop :=
  (L.variables.map Variable.id).Nodup ∧
  (L.forms.map Form.id).Nodup ∧
  L.refIntegrity ∧
  ∀ v ∈ L.variables, (v.type = .select ∨ v.type = .radio) →
    ∃ os, v.options = some os ∧ os ≠ []

instance (L : LibraryData) : Decidable L.wellFormed := by
  unfold LibraryData.wellFormed
  infer_instance

/-!
## Project File Codec

`src/App.tsx` persists with `JSON.stringify(projects)` and loads with
`JSON.parse`.  The encoders below produce the JSON tree that
`JSON.stringify` serializes (optional `undefined` fields are omitted, as
`JSON.stringify` omits them); the decoders are the structural readers of
the spec's Codec (§4.4), modelled from the spec since the code relies on
untyped `JSON.parse`.
-/

/-- Encode an optional field: omitted when absent, present when given
(the treatment of `undefined` fields by `JSON.stringify`). -/
def optField (k : String) (enc : α → Json) : Option α → List (String × Json)
  | none => []
  | some a => [(k, enc a)]

def encodeStrList (xs : List String) : Json :=
  Json.arr (xs.map Json.str)

def encodeStrMap (ps : List (String × String)) : Json :=
  Json.obj (ps.map fun p => (p.1, Json.str p.2))

def encodeVariable (v : Variable) : Json :=
  Json.obj ([("id", Json.str v.id), ("label", Json.str v.label),
    ("type", Json.str v.type.toString)]
    ++ optField "options" encodeStrList v.options
    ++ optField "format" Json.str v.format)

def encodeForm (f : Form) : Json :=
  Json.obj ([("id", Json.str f.id), ("name", Json.str f.name),
    ("type", Json.str f.type.toString),
    ("variableIds", encodeStrList f.variableIds)]
    ++ optField "headerVariableIds" encodeStrList f.headerVariableIds
    ++ optField "defaultRows" encodeStrList f.defaultRows)

def encodeLibrary (L : LibraryData) : Json :=
  Json.obj [("variables", Json.arr (L.variables.map encodeVariable)),
    ("forms", Json.arr (L.forms.map encodeForm))]

def encodeGridRow (r : GridRow) : Json :=
  Json.obj [("id", Json.str r.id), ("values", encodeStrMap r.values)]

mutual

def encodeNode : ProjectNode → Json
  | .mk i t f cs r h =>
    Json.obj ([("id", Json.str i), ("title", Json.str t)]
      ++ optField "formId" Json.str f
      ++ [("children", Json.arr (encodeNodes cs))]
      ++ optField "rows" (fun rs => Json.arr (rs.map encodeGridRow)) r
      ++ optField "headerValues" encodeStrMap h)

def encodeNodes : List ProjectNode → List Json
  | [] => []
  | n :: ns => encodeNode n :: encodeNodes ns

end

def encodeVersion (v : ProjectVersion) : Json :=
  Json.obj [("id", Json.str v.id), ("label", Json.str v.label),
    ("createdAt", Json.num v.createdAt),
    ("tree", Json.arr (encodeNodes v.tree)),
    ("library", encodeLibrary v.library)]

def encodeMeta (m : ProjectMeta) : Json :=
  Json.obj [("id", Json.str m.id), ("name", Json.str m.name),
    ("description", Json.str m.description),
    ("createdAt", Json.num m.createdAt),
    ("lastModified", Json.num m.lastModified)]

def encodeProjectData (d : ProjectData) : Json :=
  Json.obj [("project", Json.arr (encodeNodes d.project)),
    ("library", encodeLibrary d.library),
    ("versions", Json.arr (d.versions.map encodeVersion))]

def encodeProjectFile (p : ProjectFile) : Json :=
  Json.obj [("meta", encodeMeta p.meta), ("data", encodeProjectData p.data)]

/-- The exact value persisted by the save effect: the JSON array holding
every Project File of the registry, in order. -/
def encodeProjects (ps : List ProjectFile) : Json :=
  Json.arr (ps.map encodeProjectFile)

def decodeStr : Json → Option String
  | .str s => some s
  | _ => none

def decodeNum : Json → Option Nat
  | .num n => some n
  | _ => none

/-- Decode every element of a list, failing if any element fails. -/
def optionTraverse (f : α → Option β) : List α → Option (List β)
  | [] => some []
  | a :: as => do
      let b ← f a
      let bs ← optionTraverse f as
      pure (b :: bs)

def decodeArr (d : Json → Option α) : Json → Option (List α)
  | .arr es => optionTraverse d es
  | _ => none

def decodeStrList : Json → Option (List String) :=
  decodeArr decodeStr

def decodeStrMap : Json → Option (List (String × String))
  | .obj fs => optionTraverse (fun p => (decodeStr p.2).map fun s => (p.1, s)) fs
  | _ => none

/-- Read an optional field: an absent field is `none`, a present field must
decode. -/
def readOpt (o : Option Json) (d : Json → Option α) : Option (Option α) :=
  match o with
  | none => some none
  | some v => (d v).map some

def decodeVariable (j : Json) : Option Variable := do
  let i ← (j.getField "id").bind decodeStr
  let l ← (j.getField "label").bind decodeStr
  let ty ← ((j.getField "type").bind decodeStr).bind VarType.ofString
  let os ← readOpt (j.getField "options") decodeStrList
  let fm ← readOpt (j.getField "format") decodeStr
  pure { id := i, label := l, type := ty, options := os, format := fm }

def decodeForm (j : Json) : Option Form := do
  let i ← (j.getField "id").bind decodeStr
  let n ← (j.getField "name").bind decodeStr
  let ty ← ((j.getField "type").bind decodeStr).bind FormType.ofString
  let vs ← (j.getField "variableIds").bind decodeStrList
  let hs ← readOpt (j.getField "headerVariableIds") decodeStrList
  let ds ← readOpt (j.getField "defaultRows") decodeStrList
  pure { id := i, name := n, type := ty, variableIds := vs,
         headerVariableIds := hs, defaultRows := ds }

def decodeLibrary (j : Json) : Option LibraryData := do
  let vs ← (j.getField "variables").bind (decodeArr decodeVariable)
  let fs ← (j.getField "forms").bind (decodeArr decodeForm)
  pure { «variables» := vs, forms := fs }

def decodeGridRow (j : Json) : Option GridRow := do
  let i ← (j.getField "id").bind decodeStr
  let vs ← (j.getField "values").bind decodeStrMap
  pure { id := i, values := vs }

/-- A value looked up in a field list is smaller than the list, for the
termination of the tree decoder. -/
theorem sizeOf_lookup_lt {k : String} {v : Json} :
    ∀ {fs : List (String × Json)}, fs.lookup k = some v → sizeOf v < sizeOf fs := by
  intro fs
  induction fs with
  | nil => intro h; simp [List.lookup] at h
  | cons p ps ih =>
    intro h
    obtain ⟨k2, v2⟩ := p
    simp only [List.lookup] at h
    by_cases hk : (k == k2) = true
    · rw [hk] at h
      simp only [Option.some.injEq] at h
      subst h
      simp only [List.cons.sizeOf_spec, Prod.mk.sizeOf_spec]
      omega
    · rw [Bool.not_eq_true] at hk
      rw [hk] at h
      have := ih h
      simp only [List.cons.sizeOf_spec]
      omega

mutual

def decodeNode : Json → Option ProjectNode
  | .obj fields =>
    match hc : fields.lookup "children" with
    | some (Json.arr cjs) => do
        let i ← (fields.lookup "id").bind decodeStr
        let t ← (fields.lookup "title").bind decodeStr
        let f ← readOpt (fields.lookup "formId") decodeStr
        let cs ← decodeNodes cjs
        let r ← readOpt (fields.lookup "rows") (decodeArr decodeGridRow)
        let h ← readOpt (fields.lookup "headerValues") decodeStrMap
        pure (.mk i t f cs r h)
    | _ => none
  | _ => none
termination_by j => sizeOf j
decreasing_by
  have h1 := sizeOf_lookup_lt hc
  simp only [Json.arr.sizeOf_spec, Json.obj.sizeOf_spec] at h1 ⊢
  omega

def decodeNodes : List Json → Option (List ProjectNode)
  | [] => some []
  | j :: js => do
      let n ← decodeNode j
      let ns ← decodeNodes js
      pure (n :: ns)
termination_by js => sizeOf js
decreasing_by
  all_goals simp only [List.cons.sizeOf_spec]
  all_goals omega

end

def decodeVersion (j : Json) : Option ProjectVersion := do
  let i ← (j.getField "id").bind decodeStr
  let l ← (j.getField "label").bind decodeStr
  let c ← (j.getField "createdAt").bind decodeNum
  let t ← (j.getField "tree").bind (fun x => match x with
    | Json.arr es => decodeNodes es
    | _ => none)
  let lib ← (j.getField "library").bind decodeLibrary
  pure { id := i, label := l, createdAt := c, tree := t, library := lib }

def decodeMeta (j : Json) : Option ProjectMeta := do
  let i ← (j.getField "id").bind decodeStr
  let n ← (j.getField "name").bind decodeStr
  let d ← (j.getField "description").bind decodeStr
  let c ← (j.getField "createdAt").bind decodeNum
  let m ← (j.getField "lastModified").bind decodeNum
  pure { id := i, name := n, description := d, createdAt := c, lastModified := m }

def decodeProjectData (j : Json) : Option ProjectData := do
  let p ← (j.getField "project").bind (fun x => match x with
    | Json.arr es => decodeNodes es
    | _ => none)
  let lib ← (j.getField "library").bind decodeLibrary
  let vs ← (j.getField "versions").bind (decodeArr decodeVersion)
  pure { project := p, library := lib, versions := vs }

def decodeProjectFile (j : Json) : Option ProjectFile := do
  let m ← (j.getField "meta").bind decodeMeta
  let d ← (j.getField "data").bind decodeProjectData
  pure { meta := m, data := d }

/-- The structural reader of the persisted document: the list of Project
Files back out of the stored JSON array. -/
def decodeProjects : Json → Option (List ProjectFile) :=
  decodeArr decodeProjectFile

/-!
## The registry state and its handlers

The `App` component's state is the `projects` list and the
`activeProjectId` (`useState` pair, src/App.tsx lines 96–97).  Every
`Date.now()` reading inside one synchronous handler is modelled by a
single `now : Nat` parameter.
-/

/-- The registry state held by the `App` component. -/
structure AppState where
  projects : List ProjectFile
  activeProjectId : Option String

/-- The initial component state: `useState<ProjectFile[]>([])` and
`useState<string | null>(null)`. -/
def initialState : AppState :=
  { projects := [], activeProjectId := none }

/-- The deep copy `JSON.parse(JSON.stringify(L))` used to seed a new
project's library (src/App.tsx line 134), modelled through the codec.
The fallback is never reached: `decodeLibrary_encodeLibrary` shows the
copy always succeeds and equals `L`. -/
def jsonDeepCopyLibrary (L : LibraryData) : LibraryData :=
  (decodeLibrary (encodeLibrary L)).getD L

/-- `handleCreateProject` (src/App.tsx lines 123–140): build a fresh
Project File with id `PROJ_<Date.now()>`, empty tree and versions, a JSON
deep copy of `INITIAL_LIBRARY`, prepend it to the list and activate it. -/
def handleCreateProject (name description : String) (now : Nat) (s : AppState) : AppState :=
  let newProject : ProjectFile :=
    { meta := { id := "PROJ_" ++ toString now, name := name,
                description := description, createdAt := now, lastModified := now },
      data := { project := [], library := jsonDeepCopyLibrary INITIAL_LIBRARY,
                versions := [] } }
  { projects := newProject :: s.projects,
    activeProjectId := some newProject.meta.id }

/-- `handleImportProject` (src/App.tsx lines 142–150): refuse (alert and
return, state untouched) when some project already has the document's
`meta.id`; otherwise prepend the document and activate it. -/
def handleImportProject (fileData : ProjectFile) (s : AppState) : AppState :=
  if s.projects.any (fun p => p.meta.id == fileData.meta.id) then s
  else { projects := fileData :: s.projects,
         activeProjectId := some fileData.meta.id }

/-- `handleDeleteProject` (src/App.tsx lines 152–155): drop every project
with the given id; clear the active id when it was the deleted one. -/
def handleDeleteProject (id : String) (s : AppState) : AppState :=
  { projects := s.projects.filter (fun p => p.meta.id != id),
    activeProjectId := if s.activeProjectId = some id then none
                       else s.activeProjectId }

/-- `updateActiveProjectData` (src/App.tsx lines 170–181): when an active
project id is set (JavaScript truthiness: `null` and the empty string are
both falsy, so `!activeProjectId` also skips the empty-string id), map
over the list, replacing the project whose `meta.id` matches with one
whose `data` is the updater's output and whose `meta.lastModified` is the
current time. -/
def updateActiveProjectData (updater : ProjectData → ProjectData) (now : Nat)
    (s : AppState) : AppState :=
  match s.activeProjectId with
  | none => s
  | some aid =>
    if aid = "" then s
    else
      { s with projects := s.projects.map (fun p =>
          if p.meta.id == aid then
            { meta := { p.meta with lastModified := now }, data := updater p.data }
          else p) }

/-- `React.SetStateAction α`: a replacement value or an updater function
(the `typeof valueOrFn` dispatch in the wrappers). -/
abbrev SetStateAction (α : Type) := α ⊕ (α → α)

def applyAction : SetStateAction α → α → α
  | Sum.inl v, _ => v
  | Sum.inr f, a => f a

/-- `setProjectWrapper` (src/App.tsx lines 184–189). -/
def setProjectWrapper (valueOrFn : SetStateAction (List ProjectNode)) (now : Nat)
    (s : AppState) : AppState :=
  updateActiveProjectData
    (fun data => { data with project := applyAction valueOrFn data.project }) now s

/-- `setLibraryWrapper` (src/App.tsx lines 191–196). -/
def setLibraryWrapper (valueOrFn : SetStateAction LibraryData) (now : Nat)
    (s : AppState) : AppState :=
  updateActiveProjectData
    (fun data => { data with library := applyAction valueOrFn data.library }) now s

/-- `setVersionsWrapper` (src/App.tsx lines 198–203). -/
def setVersionsWrapper (valueOrFn : SetStateAction (List ProjectVersion)) (now : Nat)
    (s : AppState) : AppState :=
  updateActiveProjectData
    (fun data => { data with versions := applyAction valueOrFn data.versions }) now s

/-- The persist effect (src/App.tsx lines 115–119): after each change of
the projects list, replace the stored document wholesale — but only when
the list is non-empty; an empty list leaves storage untouched. -/
def saveProjectsEffect (projects : List ProjectFile) (stored : Option Json) : Option Json :=
  if projects.length > 0 then some (encodeProjects projects) else stored

/-- The load effect (src/App.tsx lines 100–112).  The stored payload is
modelled as: `none` = key absent, `some none` = present but `JSON.parse`
throws, `some (some j)` = parses to the JSON value `j`.  The parsed value
is installed as the projects list only when it is an array (the elements
are raw JSON values — `JSON.parse` performs no field validation); in every
other case the state keeps its initial empty list. -/
def loadProjectsEffect (saved : Option (Option Json)) : List Json :=
  match saved with
  | some (some (Json.arr parsed)) => parsed
  | _ => []

/-- One registry operation of the dashboard: create, import or delete. -/
inductive RegOp where
  | create (name description : String) (now : Nat)
  | importFile (f : ProjectFile)
  | delete (id : String)

def applyRegOp : RegOp → AppState → AppState
  | .create n d now, s => handleCreateProject n d now s
  | .importFile f, s => handleImportProject f s
  | .delete i, s => handleDeleteProject i s

def runRegOps (ops : List RegOp) (s : AppState) : AppState :=
  ops.foldl (fun st op => applyRegOp op st) s

/-- The `meta.id`s of the registry, in list order. -/
def idsOf (s : AppState) : List String :=
  s.projects.map (fun p => p.meta.id)

/-!
## Concrete sample documents

Inputs used to instantiate the claim theorems and to exhibit
counterexamples.
-/

/-- A minimal well-formed Project File with the given id. -/
def sampleFile (i : String) : ProjectFile :=
  { meta := { id := i, name := "n", description := "d", createdAt := 0, lastModified := 0 },
    data := { project := [], library := INITIAL_LIBRARY, versions := [] } }

/-- A library whose single form references a variable absent from the
(empty) variable list: it violates referential integrity. -/
def danglingLibrary : LibraryData :=
  { «variables» := [],
    forms := [{ id := "PK2", name := "bad", type := .standard,
                variableIds := ["MISSING"] }] }

/-- An import document with well-formed meta but a referentially invalid
embedded library. -/
def danglingImportDoc : ProjectFile :=
  { meta := { id := "IMP_1", name := "imported", description := "",
              createdAt := 0, lastModified := 0 },
    data := { project := [], library := danglingLibrary, versions := [] } }

/-- A registry state with a single project "P1", which is active. -/
def activeSampleState : AppState :=
  { projects := [sampleFile "P1"], activeProjectId := some "P1" }

/-- The project of `activeSampleState` after an edit at time 7. -/
def sampleUpdatedFile : ProjectFile :=
  { meta := { id := "P1", name := "n", description := "d", createdAt := 0, lastModified := 7 },
    data := { project := [], library := INITIAL_LIBRARY, versions := [] } }

/-! ## Round-trip lemmas for the codec -/

theorem varType_ofString_toString (t : VarType) :
    VarType.ofString t.toString = some t := by
  cases t <;> simp [VarType.toString, VarType.ofString]

theorem formType_ofString_toString (t : FormType) :
    FormType.ofString t.toString = some t := by
  cases t <;> simp [FormType.toString, FormType.ofString]

theorem optionTraverse_map_of_inverse {α β : Type} {enc : α → β} {dec : β → Option α}
    (h : ∀ a, dec (enc a) = some a) :
    ∀ xs : List α, optionTraverse dec (xs.map enc) = some xs := by
  intro xs
  induction xs with
  | nil => simp [optionTraverse]
  | cons x xs ih => simp [optionTraverse, h x, ih]

theorem decodeStr_str (s : String) : decodeStr (Json.str s) = some s := rfl

theorem decodeNum_num (n : Nat) : decodeNum (Json.num n) = some n := rfl

theorem decodeStrList_encodeStrList (xs : List String) :
    decodeStrList (encodeStrList xs) = some xs := by
  simp only [decodeStrList, encodeStrList, decodeArr]
  exact optionTraverse_map_of_inverse decodeStr_str xs

theorem decodeStrMap_encodeStrMap (ps : List (String × String)) :
    decodeStrMap (encodeStrMap ps) = some ps := by
  simp only [decodeStrMap, encodeStrMap]
  induction ps with
  | nil => simp [optionTraverse]
  | cons p ps ih => simp [optionTraverse, decodeStr_str, ih]

theorem decodeVariable_encodeVariable (v : Variable) :
    decodeVariable (encodeVariable v) = some v := by
  obtain ⟨i, l, ty, os, fm⟩ := v
  cases os <;> cases fm <;>
    simp [encodeVariable, decodeVariable, Json.getField, optField, List.lookup,
      decodeStr, decodeStrList_encodeStrList, varType_ofString_toString, readOpt]

theorem decodeForm_encodeForm (f : Form) :
    decodeForm (encodeForm f) = some f := by
  obtain ⟨i, n, ty, vs, hs, ds⟩ := f
  cases hs <;> cases ds <;>
    simp [encodeForm, decodeForm, Json.getField, optField, List.lookup,
      decodeStr, decodeStrList_encodeStrList, formType_ofString_toString, readOpt]

theorem decodeLibrary_encodeLibrary (L : LibraryData) :
    decodeLibrary (encodeLibrary L) = some L := by
  obtain ⟨vs, fs⟩ := L
  simp [encodeLibrary, decodeLibrary, Json.getField, List.lookup, decodeArr,
    optionTraverse_map_of_inverse decodeVariable_encodeVariable,
    optionTraverse_map_of_inverse decodeForm_encodeForm]

theorem decodeGridRow_encodeGridRow (r : GridRow) :
    decodeGridRow (encodeGridRow r) = some r := by
  obtain ⟨i, vs⟩ := r
  simp [encodeGridRow, decodeGridRow, Json.getField, List.lookup, decodeStr,
    decodeStrMap_encodeStrMap]

mutual

theorem decodeNode_encodeNode : ∀ n : ProjectNode, decodeNode (encodeNode n) = some n
  | .mk i t f cs r h => by
    have ihc := decodeNodes_encodeNodes cs
    cases f <;> cases r <;> cases h <;>
      simp [encodeNode, decodeNode, optField, List.lookup, decodeStr_str, ihc,
        readOpt, decodeArr,
        optionTraverse_map_of_inverse decodeGridRow_encodeGridRow,
        decodeStrMap_encodeStrMap]
termination_by n => sizeOf n

theorem decodeNodes_encodeNodes : ∀ ns : List ProjectNode,
    decodeNodes (encodeNodes ns) = some ns
  | [] => by simp [encodeNodes, decodeNodes]
  | n :: ns => by
    have ih1 := decodeNode_encodeNode n
    have ih2 := decodeNodes_encodeNodes ns
    simp [encodeNodes, decodeNodes, ih1, ih2]
termination_by ns => sizeOf ns

end

theorem decodeVersion_encodeVersion (v : ProjectVersion) :
    decodeVersion (encodeVersion v) = some v := by
  obtain ⟨i, l, c, t, lib⟩ := v
  simp [encodeVersion, decodeVersion, Json.getField, List.lookup, decodeStr_str,
    decodeNum_num, decodeNodes_encodeNodes, decodeLibrary_encodeLibrary]

theorem decodeMeta_encodeMeta (m : ProjectMeta) :
    decodeMeta (encodeMeta m) = some m := by
  obtain ⟨i, n, d, c, l⟩ := m
  simp [encodeMeta, decodeMeta, Json.getField, List.lookup, decodeStr_str,
    decodeNum_num]

theorem decodeProjectData_encodeProjectData (d : ProjectData) :
    decodeProjectData (encodeProjectData d) = some d := by
  obtain ⟨p, lib, vs⟩ := d
  simp [encodeProjectData, decodeProjectData, Json.getField, List.lookup,
    decodeNodes_encodeNodes, decodeLibrary_encodeLibrary, decodeArr,
    optionTraverse_map_of_inverse decodeVersion_encodeVersion]

theorem decodeProjectFile_encodeProjectFile (p : ProjectFile) :
    decodeProjectFile (encodeProjectFile p) = some p := by
  obtain ⟨m, d⟩ := p
  simp [encodeProjectFile, decodeProjectFile, Json.getField, List.lookup,
    decodeMeta_encodeMeta, decodeProjectData_encodeProjectData]

/-!
## Behaviour of the import handler
-/

theorem handleImportProject_dup (f : ProjectFile) (s : AppState)
    (h : ∃ p ∈ s.projects, p.meta.id = f.meta.id) :
    handleImportProject f s = s := by
  have hb : s.projects.any (fun p => p.meta.id == f.meta.id) = true := by
    obtain ⟨p, hp, hid⟩ := h
    exact List.any_eq_true.mpr ⟨p, hp, by simp [hid]⟩
  simp [handleImportProject, hb]

theorem handleImportProject_fresh (f : ProjectFile) (s : AppState)
    (h : ∀ p ∈ s.projects, p.meta.id ≠ f.meta.id) :
    handleImportProject f s
      = { projects := f :: s.projects, activeProjectId := some f.meta.id } := by
  have hb : s.projects.any (fun p => p.meta.id == f.meta.id) = false := by
    rw [List.any_eq_false]
    intro p hp
    simp [h p hp]
  simp [handleImportProject, hb]

/-- Claim C2: importing a document whose `meta.id` already occurs in the
registry is refused and the state — in particular the project list — is
unchanged; a document with a fresh `meta.id` is admitted at the head of
the list. -/
theorem import_dup_refused_fresh_admitted (f : ProjectFile) (s : AppState) :
    ((∃ p ∈ s.projects, p.meta.id = f.meta.id) → handleImportProject f s = s) ∧
    ((∀ p ∈ s.projects, p.meta.id ≠ f.meta.id) →
      (handleImportProject f s).projects = f :: s.projects) :=
  ⟨handleImportProject_dup f s,
   fun h => by rw [handleImportProject_fresh f s h]⟩

/-- Witness for C2: importing `sampleFile "A"` over a registry already
holding it is a no-op; importing into the empty registry admits it. -/
theorem import_dup_refused_fresh_admitted_witness :
    handleImportProject (sampleFile "A")
        { projects := [sampleFile "A"], activeProjectId := none }
      = { projects := [sampleFile "A"], activeProjectId := none } ∧
    (handleImportProject (sampleFile "B") initialState).projects = [sampleFile "B"] := by
  constructor
  · exact (import_dup_refused_fresh_admitted (sampleFile "A") _).1
      ⟨sampleFile "A", by simp, rfl⟩
  · exact (import_dup_refused_fresh_admitted (sampleFile "B") initialState).2
      (by simp [initialState])

/-- Claim C1 (counterexample): a document whose embedded library is
referentially invalid (a form references the absent variable `MISSING`)
is admitted by the import operation, and the Registry's project list
changes — no referential-integrity validation happens. -/
theorem import_refIntegrity_cex :
    ¬ danglingImportDoc.data.library.refIntegrity ∧
    (handleImportProject danglingImportDoc initialState).projects
      = [danglingImportDoc] := by
  constructor
  · decide
  · rfl

/-- Claim C1 (amended): `handleImportProject` validates only `meta.id`
duplication: a document whose embedded library has a dangling variable
reference is admitted whenever its `meta.id` is not already present, and
the project list grows by exactly that document. -/
theorem import_admits_refInvalid (f : ProjectFile) (s : AppState)
    (hbad : ¬ f.data.library.refIntegrity)
    (hfresh : ∀ p ∈ s.projects, p.meta.id ≠ f.meta.id) :
    (handleImportProject f s).projects = f :: s.projects := by
  rw [handleImportProject_fresh f s hfresh]

/-- Witness for the amended C1, at the concrete dangling document. -/
theorem import_admits_refInvalid_witness :
    (handleImportProject danglingImportDoc initialState).projects
      = [danglingImportDoc] :=
  import_admits_refInvalid danglingImportDoc initialState (by decide)
    (by simp [initialState])

/-- Claim C3: the serialize/deserialize pair round-trips: structurally
reading back the persisted JSON array yields exactly the original list of
Project Files, preserving ordering, numeric values, and the distinction
between absent and explicitly empty optional fields. -/
theorem decodeProjects_encodeProjects (ps : List ProjectFile) :
    decodeProjects (encodeProjects ps) = some ps := by
  simp only [decodeProjects, encodeProjects, decodeArr]
  exact optionTraverse_map_of_inverse decodeProjectFile_encodeProjectFile ps

/-- Claim C7: the built-in default Library Store satisfies the library
invariants: unique variable and form ids, referential integrity of
`variableIds`/`headerVariableIds`, and non-empty `options` on every
select/radio variable. -/
theorem INITIAL_LIBRARY_wellFormed : INITIAL_LIBRARY.wellFormed := by decide

/-- Claim C4: creating a project yields a Project File with an empty tree
and empty versions, a library structurally equal to the built-in default
(the JSON deep copy is lossless, so the new library is a fresh value equal
to `INITIAL_LIBRARY`), the given name and description, and
`createdAt = lastModified`. -/
theorem create_project_fresh_defaults (name description : String) (now : Nat)
    (s : AppState) :
    ∃ np : ProjectFile,
      (handleCreateProject name description now s).projects = np :: s.projects ∧
      np.data.project = [] ∧ np.data.versions = [] ∧
      np.data.library = INITIAL_LIBRARY ∧
      np.meta.name = name ∧ np.meta.description = description ∧
      np.meta.createdAt = np.meta.lastModified := by
  refine ⟨_, rfl, rfl, rfl, ?_, rfl, rfl, rfl⟩
  show jsonDeepCopyLibrary INITIAL_LIBRARY = INITIAL_LIBRARY
  simp [jsonDeepCopyLibrary, decodeLibrary_encodeLibrary]

theorem updateActive_sets_lastModified (upd : ProjectData → ProjectData) (now : Nat)
    (s : AppState) (aid : String) (hactive : s.activeProjectId = some aid)
    (hne : aid ≠ "") :
    ∀ p ∈ (updateActiveProjectData upd now s).projects, p.meta.id = aid →
      p.meta.lastModified = now := by
  intro p hp hid
  simp only [updateActiveProjectData, hactive, if_neg hne] at hp
  obtain ⟨q, hq, hqe⟩ := List.mem_map.mp hp
  by_cases h : q.meta.id = aid
  · rw [if_pos (by simp [h])] at hqe
    subst hqe
    rfl
  · rw [if_neg (by simp [h])] at hqe
    subst hqe
    exact absurd hid h

/-- Claim C5: an edit through any of the three setter wrappers sets the
active project's `meta.lastModified` to the time of the edit.  The
hypotheses state that an active project id is set and non-empty —
otherwise JavaScript truthiness (`!activeProjectId`) skips the update and
no edit is applied at all. -/
theorem wrappers_bump_lastModified (now : Nat) (s : AppState) (aid : String)
    (a1 : SetStateAction (List ProjectNode)) (a2 : SetStateAction LibraryData)
    (a3 : SetStateAction (List ProjectVersion))
    (hactive : s.activeProjectId = some aid) (hne : aid ≠ "") :
    (∀ p ∈ (setProjectWrapper a1 now s).projects, p.meta.id = aid →
      p.meta.lastModified = now) ∧
    (∀ p ∈ (setLibraryWrapper a2 now s).projects, p.meta.id = aid →
      p.meta.lastModified = now) ∧
    (∀ p ∈ (setVersionsWrapper a3 now s).projects, p.meta.id = aid →
      p.meta.lastModified = now) :=
  ⟨updateActive_sets_lastModified _ now s aid hactive hne,
   updateActive_sets_lastModified _ now s aid hactive hne,
   updateActive_sets_lastModified _ now s aid hactive hne⟩

/-- Witness for C5: editing the tree of the active project "P1" at time 7
stamps `lastModified = 7` on it. -/
theorem wrappers_bump_lastModified_witness : sampleUpdatedFile.meta.lastModified = 7 :=
  (wrappers_bump_lastModified 7 activeSampleState "P1" (Sum.inl []) (Sum.inl INITIAL_LIBRARY)
      (Sum.inl []) rfl (by decide)).1
    sampleUpdatedFile (List.mem_singleton.mpr rfl) rfl

/-- Claim C6 (counterexample): `handleCreateProject` derives the new
`meta.id` from the clock without any collision check, so two create
operations within the same millisecond (`Date.now()` returning 5 twice)
produce a reachable registry holding two projects with the same id
`PROJ_5`. -/
theorem regOps_duplicate_ids_cex :
    idsOf (runRegOps [RegOp.create "A" "" 5, RegOp.create "B" "" 5] initialState)
      = ["PROJ_5", "PROJ_5"] ∧
    ¬ (idsOf (runRegOps [RegOp.create "A" "" 5, RegOp.create "B" "" 5]
        initialState)).Nodup := by
  constructor
  · rfl
  · decide

/-- Claim C6 (amended): distinctness of `meta.id`s is preserved by import
and delete unconditionally, and by create exactly when the generated id
`PROJ_<now>` is not already present — the code itself performs no
collision check on create, so uniqueness holds only under that freshness
assumption on the clock. -/
theorem regOps_preserve_id_nodup :
    (idsOf initialState).Nodup ∧
    (∀ (s : AppState) (n d : String) (now : Nat), (idsOf s).Nodup →
      ("PROJ_" ++ toString now) ∉ idsOf s →
      (idsOf (handleCreateProject n d now s)).Nodup) ∧
    (∀ (s : AppState) (f : ProjectFile), (idsOf s).Nodup →
      (idsOf (handleImportProject f s)).Nodup) ∧
    (∀ (s : AppState) (i : String), (idsOf s).Nodup →
      (idsOf (handleDeleteProject i s)).Nodup) := by
  refine ⟨by simp [idsOf, initialState], ?_, ?_, ?_⟩
  · intro s n d now hnd hfresh
    simp only [idsOf, handleCreateProject, List.map_cons]
    exact List.nodup_cons.mpr ⟨hfresh, hnd⟩
  · intro s f hnd
    by_cases hdup : ∃ p ∈ s.projects, p.meta.id = f.meta.id
    · rw [handleImportProject_dup f s hdup]
      exact hnd
    · push_neg at hdup
      rw [handleImportProject_fresh f s hdup]
      simp only [idsOf, List.map_cons]
      refine List.nodup_cons.mpr ⟨?_, hnd⟩
      intro hmem
      obtain ⟨p, hp, hid⟩ := List.mem_map.mp hmem
      exact hdup p hp hid
  · intro s i hnd
    have hsub : List.Sublist (idsOf (handleDeleteProject i s)) (idsOf s) := by
      simp only [idsOf, handleDeleteProject]
      exact (List.filter_sublist _).map _
    exact List.Nodup.sublist hsub hnd

/-- Witness for the amended C6: a create over the empty registry and the
admission of a sample document into the empty registry keep ids distinct. -/
theorem regOps_preserve_id_nodup_witness :
    (idsOf (handleCreateProject "A" "" 5 initialState)).Nodup ∧
    (idsOf (handleImportProject (sampleFile "X") initialState)).Nodup :=
  ⟨regOps_preserve_id_nodup.2.1 initialState "A" "" 5 (by decide) (by decide),
   regOps_preserve_id_nodup.2.2.1 initialState (sampleFile "X") (by decide)⟩

/-- Claim C8: each persisted write replaces the stored document wholesale
with the serialization of the full project list; persistence is skipped
whenever the in-memory list is empty, so deleting the last remaining
project leaves the previously persisted (now stale) document in place. -/
theorem save_replaces_skips_empty :
    (∀ (ps : List ProjectFile) (st : Option Json), ps ≠ [] →
      saveProjectsEffect ps st = some (encodeProjects ps)) ∧
    (∀ st : Option Json, saveProjectsEffect [] st = st) ∧
    (∀ (p : ProjectFile) (a : Option String) (st : Option Json),
      saveProjectsEffect
        (handleDeleteProject p.meta.id { projects := [p], activeProjectId := a }).projects
        st = st) := by
  refine ⟨?_, ?_, ?_⟩
  · intro ps st hne
    simp [saveProjectsEffect, List.length_pos.mpr hne]
  · intro st
    simp [saveProjectsEffect]
  · intro p a st
    simp [saveProjectsEffect, handleDeleteProject]

/-- Witness for C8: a non-empty list is written in full; the empty list
leaves the old payload; deleting the only project leaves the old payload. -/
theorem save_replaces_skips_empty_witness :
    saveProjectsEffect [sampleFile "W"] none
      = some (encodeProjects [sampleFile "W"]) ∧
    saveProjectsEffect [] (some (Json.str "old")) = some (Json.str "old") ∧
    saveProjectsEffect
      (handleDeleteProject (sampleFile "W").meta.id
        { projects := [sampleFile "W"], activeProjectId := none }).projects
      (some (Json.str "old")) = some (Json.str "old") :=
  ⟨save_replaces_skips_empty.1 _ none (by simp),
   save_replaces_skips_empty.2.1 _,
   save_replaces_skips_empty.2.2 (sampleFile "W") none _⟩

/-- Claim C9: on startup the project list is installed from storage only
when the payload parses to an array; an absent key, an unparsable payload
or a non-array value all leave the list empty — nothing is partially
loaded. -/
theorem load_installs_only_arrays :
    loadProjectsEffect none = [] ∧
    loadProjectsEffect (some none) = [] ∧
    (∀ j : Json, (∀ xs : List Json, j ≠ Json.arr xs) →
      loadProjectsEffect (some (some j)) = []) ∧
    (∀ xs : List Json, loadProjectsEffect (some (some (Json.arr xs))) = xs) := by
  refine ⟨rfl, rfl, ?_, fun xs => rfl⟩
  intro j hj
  cases j
  case arr xs => exact absurd rfl (hj xs)
  all_goals rfl

/-- Witness for C9: a payload that parses to a (non-array) object is
ignored. -/
theorem load_installs_only_arrays_witness :
    loadProjectsEffect (some (some (Json.obj []))) = [] :=
  load_installs_only_arrays.2.2.1 (Json.obj []) (fun xs h => nomatch h)

/-- Claim C10: `updateActiveProjectData` is frame-correct: with no active
project the state is unchanged; with an active id, the active id and the
list length are preserved, every project whose id differs from the active
one is returned unchanged at its position, and every project keeps its
`meta.id`, `name`, `description` and `createdAt`. -/
theorem updateActive_frame (upd : ProjectData → ProjectData) (now : Nat) (s : AppState) :
    (s.activeProjectId = none → updateActiveProjectData upd now s = s) ∧
    (∀ aid : String, s.activeProjectId = some aid →
      (updateActiveProjectData upd now s).activeProjectId = some aid ∧
      (updateActiveProjectData upd now s).projects.length = s.projects.length ∧
      (∀ (i : Nat) (p : ProjectFile), s.projects[i]? = some p →
        ∃ q, (updateActiveProjectData upd now s).projects[i]? = some q ∧
          (p.meta.id ≠ aid → q = p) ∧
          q.meta.id = p.meta.id ∧ q.meta.name = p.meta.name ∧
          q.meta.description = p.meta.description ∧
          q.meta.createdAt = p.meta.createdAt)) := by
  constructor
  · intro h
    simp [updateActiveProjectData, h]
  · intro aid hact
    by_cases hne : aid = ""
    · subst hne
      have hupd : updateActiveProjectData upd now s = s := by
        simp [updateActiveProjectData, hact]
      rw [hupd]
      exact ⟨hact, rfl, fun i p hp =>
        ⟨p, hp, fun _ => rfl, rfl, rfl, rfl, rfl⟩⟩
    · simp only [updateActiveProjectData, hact, if_neg hne]
      refine ⟨by simp [hact], by simp, ?_⟩
      intro i p hp
      by_cases h2 : p.meta.id = aid
      · refine ⟨{ meta := { p.meta with lastModified := now }, data := upd p.data },
          ?_, fun hc => absurd h2 hc, rfl, rfl, rfl, rfl⟩
        rw [List.getElem?_map, hp]
        simp [h2]
      · refine ⟨p, ?_, fun _ => rfl, rfl, rfl, rfl, rfl⟩
        rw [List.getElem?_map, hp]
        simp [h2]

/-- Witness for C10: with no active project an edit is a no-op, and with
active project "P1" the active id survives the edit. -/
theorem updateActive_frame_witness :
    updateActiveProjectData (fun d => d) 3 initialState = initialState ∧
    (updateActiveProjectData (fun d => d) 3 activeSampleState).activeProjectId
      = some "P1" :=
  ⟨(updateActive_frame (fun d => d) 3 initialState).1 rfl,
   ((updateActive_frame (fun d => d) 3 activeSampleState).2 "P1" rfl).1⟩
